import Mathlib

/-!
# Verification of the Safari storage scanner

Shallow embedding of `src/safari-scanner/scanner.js`: the recursive
directory-size accumulator `getDirectorySize` (inner worker
`processDirectory`), the byte formatter `formatBytes`, and the scan
orchestrator `scanSafariStorage`.

The filesystem seen by one call is modelled as a tree (`FSNode`).  The
Node.js API behaviour relevant to the scanner is folded into the node
constructors: `fs.existsSync` is false exactly on `missing` nodes,
`fs.statSync` throws exactly on `denied` nodes, `fs.readdirSync` throws
exactly on `dirDenied` nodes, and `fs.statSync` follows symbolic links,
so a `symlink` node stats as its target does.  Mutable accumulation
(`totalSize`, `itemCount`, `processedItems`, the progress callback) is
modelled by explicit state passing; the callback trace is recorded as a
list of events.
-/

mutual

/-- A node of the filesystem tree as observed by the scanner.
`file` is a regular file of the given byte size.  `dir` is a readable
directory with its named children in directory-listing order.
`symlink` is a symbolic link whose resolution is the given node
(`fs.statSync` follows symbolic links, so the link stats as its target).
`special` is a node that exists and stats as neither a regular file nor
a directory (socket, device).  `missing` is a path for which
`fs.existsSync` returns false (nonexistent, vanished mid-scan, or a
broken or cyclic link).  `denied` is a node on which `fs.statSync`
throws.  `dirDenied` is a directory on which `fs.readdirSync` throws
(its contents are unreadable, hence not represented). -/
inductive FSNode : Type where
  | file (size : Nat)
  | dir (children : FSEntries)
  | symlink (target : FSNode)
  | special
  | missing
  | denied
  | dirDenied

/-- A directory listing: named children in directory-listing order. -/
inductive FSEntries : Type where
  | nil
  | cons (name : String) (node : FSNode) (rest : FSEntries)

end

/-- Concatenation of directory-entry lists. -/
def FSEntries.append : FSEntries → FSEntries → FSEntries
  | .nil, l => l
  | .cons nm n rest, l => .cons nm n (FSEntries.append rest l)

/-- Helper for `basename`: scans the characters, restarting the
accumulated component at every slash. -/
def lastComponentAux : List Char → List Char → List Char
  | [], acc => acc
  | c :: rest, acc =>
      if c = '/' then lastComponentAux rest []
      else lastComponentAux rest (acc ++ [c])

/-- Model of `path.basename` for slash-separated paths: the part of the
string after the last slash (the whole string when there is none). -/
def basename (p : String) : String := String.mk (lastComponentAux p.data [])

/-- One record pushed onto `processedItems` for a visited file:
`{ path: currentPath, size: stats.size, name: path.basename(currentPath) }`. -/
structure FileRecord where
  path : String
  size : Nat
  name : String
deriving DecidableEq

/-- Payload of one invocation of the `getDirectorySize` progress
callback: `{ currentFile, totalSize, itemCount, inProgress: true }`. -/
structure FileEvent where
  currentFile : String
  totalSize : Nat
  itemCount : Nat
  inProgress : Bool
deriving DecidableEq

/-- The mutable state of one `getDirectorySize` call: the accumulators
`totalSize`, `itemCount`, `processedItems`, plus the recorded trace of
progress-callback invocations. -/
structure ScanState where
  totalSize : Nat
  itemCount : Nat
  processedItems : List FileRecord
  events : List FileEvent
deriving DecidableEq

mutual

/-- The inner worker `processDirectory(currentPath)` of
`getDirectorySize`, as explicit state passing.  The `try`/`catch` that
wraps the body of every (recursive) invocation is reflected in the
`missing` / `denied` / `dirDenied` cases leaving the state unchanged:
an error at a node is caught at that node and only that node's subtree
is dropped.  A `symlink` is processed as its target, because
`fs.statSync` resolves it.  A `special` node matches neither
`stats.isFile()` nor `stats.isDirectory()` and falls through silently. -/
def processDirectory : String → FSNode → ScanState → ScanState
  | _, .missing, s => s
  | _, .denied, s => s
  | _, .dirDenied, s => s
  | _, .special, s => s
  | currentPath, .symlink target, s => processDirectory currentPath target s
  | currentPath, .file sz, s =>
      let ts := s.totalSize + sz
      let ic := s.itemCount + 1
      { totalSize := ts
        itemCount := ic
        processedItems := s.processedItems ++
          [{ path := currentPath, size := sz, name := basename currentPath }]
        events := s.events ++
          [{ currentFile := basename currentPath, totalSize := ts,
             itemCount := ic, inProgress := true }] }
  | currentPath, .dir children, s => processEntries currentPath children s
termination_by _ node _ => sizeOf node

def processEntries : String → FSEntries → ScanState → ScanState
  | _, .nil, s => s
  | currentPath, .cons name child rest, s =>
      processEntries currentPath rest
        (processDirectory (currentPath ++ "/" ++ name) child s)
termination_by _ entries _ => sizeOf entries

end

/-- The record returned by `getDirectorySize`:
`{ size: totalSize, items: itemCount, files: processedItems }`. -/
structure DirStats where
  size : Nat
  items : Nat
  files : List FileRecord
deriving DecidableEq

/-- `getDirectorySize(dirPath, callback)`: runs `processDirectory` from
zeroed accumulators and returns the stats record together with the
trace of progress-callback invocations. -/
def getDirectorySize (dirPath : String) (fsTree : FSNode) : DirStats × List FileEvent :=
  let s := processDirectory dirPath fsTree
    { totalSize := 0, itemCount := 0, processedItems := [], events := [] }
  ({ size := s.totalSize, items := s.itemCount, files := s.processedItems }, s.events)

mutual

/-- The spec's measure (§4.1/§8): the sum of the byte sizes of all
regular files reachable from the tree, where symlinks, special nodes
and unreadable nodes contribute nothing ("does not follow symlinks"). -/
def specFilesSize : FSNode → Nat
  | .file sz => sz
  | .dir cs => specFilesSizeEntries cs
  | .symlink _ => 0
  | .special => 0
  | .missing => 0
  | .denied => 0
  | .dirDenied => 0

/-- Sum of `specFilesSize` over a directory listing. -/
def specFilesSizeEntries : FSEntries → Nat
  | .nil => 0
  | .cons _ n rest => specFilesSize n + specFilesSizeEntries rest

end

mutual

/-- The spec's file count (§4.1/§8), companion of `specFilesSize`. -/
def specFilesCount : FSNode → Nat
  | .file _ => 1
  | .dir cs => specFilesCountEntries cs
  | .symlink _ => 0
  | .special => 0
  | .missing => 0
  | .denied => 0
  | .dirDenied => 0

/-- Sum of `specFilesCount` over a directory listing. -/
def specFilesCountEntries : FSEntries → Nat
  | .nil => 0
  | .cons _ n rest => specFilesCount n + specFilesCountEntries rest

end

mutual

/-- Total byte size of the regular files the code actually measures:
as `specFilesSize`, except that a symlink is resolved to its target
(the behaviour of `fs.statSync`). -/
def resolvedFilesSize : FSNode → Nat
  | .file sz => sz
  | .dir cs => resolvedFilesSizeEntries cs
  | .symlink t => resolvedFilesSize t
  | .special => 0
  | .missing => 0
  | .denied => 0
  | .dirDenied => 0

/-- Sum of `resolvedFilesSize` over a directory listing. -/
def resolvedFilesSizeEntries : FSEntries → Nat
  | .nil => 0
  | .cons _ n rest => resolvedFilesSize n + resolvedFilesSizeEntries rest

end

mutual

/-- File count companion of `resolvedFilesSize`. -/
def resolvedFilesCount : FSNode → Nat
  | .file _ => 1
  | .dir cs => resolvedFilesCountEntries cs
  | .symlink t => resolvedFilesCount t
  | .special => 0
  | .missing => 0
  | .denied => 0
  | .dirDenied => 0

/-- Sum of `resolvedFilesCount` over a directory listing. -/
def resolvedFilesCountEntries : FSEntries → Nat
  | .nil => 0
  | .cons _ n rest => resolvedFilesCount n + resolvedFilesCountEntries rest

end

mutual

/-- True when the tree contains no symlink node. -/
def symlinkFree : FSNode → Bool
  | .file _ => true
  | .dir cs => symlinkFreeEntries cs
  | .symlink _ => false
  | .special => true
  | .missing => true
  | .denied => true
  | .dirDenied => true

/-- True when no tree in the listing contains a symlink node. -/
def symlinkFreeEntries : FSEntries → Bool
  | .nil => true
  | .cons _ n rest => symlinkFree n && symlinkFreeEntries rest

end

/-- True on the nodes at which the scanner's per-node `try`/`catch`
absorbs a filesystem failure (stat failure, readdir failure) or the
existence pre-check fails. -/
def isErrorNode : FSNode → Bool
  | .missing => true
  | .denied => true
  | .dirDenied => true
  | _ => false

/-- The unit array `sizes = ['B', 'KB', 'MB', 'GB']` of `formatBytes`. -/
def sizesArr : List String := ["B", "KB", "MB", "GB"]

/-- Model of `(bytes / Math.pow(1024, i)).toFixed(2)`, as the rounded
value scaled by 100: `bytes / p` rounded to two decimal places with
ties picking the larger candidate (the ECMAScript `toFixed` rule).
For `bytes < 2 ^ 53` the JavaScript division of an exactly-represented
integer by a power of 1024 is exact in binary floating point, so this
integer model is exact there. -/
def toFixed2 (bytes p : Nat) : Nat := (bytes * 200 + p) / (2 * p)

/-- Model of `parseFloat(<fixed string>)` followed by number-to-string
coercion: `parseFloat` turns the two-decimal numeral back into a
number, and ECMAScript renders that number with the shortest decimal
representation, so trailing fractional zeros (and a bare decimal
point) are stripped.  The argument is the two-decimal value scaled by
100. -/
def stripZeros (n2 : Nat) : String :=
  if n2 % 100 == 0 then toString (n2 / 100)
  else if n2 % 10 == 0 then toString (n2 / 100) ++ "." ++ toString (n2 / 10 % 10)
  else toString (n2 / 100) ++ "." ++ (if n2 % 100 < 10 then "0" else "") ++ toString (n2 % 100)

/-- `formatBytes(bytes)`.  `Math.floor(Math.log(bytes) / Math.log(1024))`
is modelled as the exact base-1024 integer logarithm
`Nat.log 1024 bytes` (the real logarithm without floating-point
rounding).  `sizes[i]` for `i` past the end of the four-element array
is JavaScript `undefined`, which string concatenation renders as
`"undefined"`. -/
def formatBytes (bytes : Nat) : String :=
  if bytes == 0 then "0 B"
  else
    let i := Nat.log 1024 bytes
    stripZeros (toFixed2 bytes (1024 ^ i)) ++ " " ++ sizesArr.getD i "undefined"

/-- The five scanned categories, in the fixed order of the `categories`
array of `scanSafariStorage`.  (`SAFARI_PATHS` also lists `webData`,
but it is never scanned.) -/
inductive Cat : Type where
  | cookies
  | cache
  | history
  | localStorage
  | databases
deriving DecidableEq

/-- The `SAFARI_PATHS` table restricted to the scanned categories,
parameterised by `os.homedir()`. -/
def SAFARI_PATHS (home : String) : Cat → String
  | .cookies => home ++ "/Library/Cookies"
  | .cache => home ++ "/Library/Caches/com.apple.Safari"
  | .history => home ++ "/Library/Safari"
  | .localStorage => home ++ "/Library/Safari/LocalStorage"
  | .databases => home ++ "/Library/Safari/Databases"

/-- The `total` slot of the results object: `{ size, items }`. -/
structure Totals where
  size : Nat
  items : Nat
deriving DecidableEq

/-- One per-category slot of the results object:
`{ size, items, category }` where `category` is the human label. -/
structure CatEntry where
  size : Nat
  items : Nat
  category : String
deriving DecidableEq

/-- The results object built by `scanSafariStorage`. -/
structure ScanResults where
  cookies : CatEntry
  cache : CatEntry
  history : CatEntry
  localStorage : CatEntry
  databases : CatEntry
  total : Totals
deriving DecidableEq

/-- The initial results object of `scanSafariStorage`. -/
def initialResults : ScanResults :=
  { cookies := { size := 0, items := 0, category := "Browsing cookies" }
    cache := { size := 0, items := 0, category := "Browser cache" }
    history := { size := 0, items := 0, category := "Website history" }
    localStorage := { size := 0, items := 0, category := "Local storage" }
    databases := { size := 0, items := 0, category := "Web databases" }
    total := { size := 0, items := 0 } }

/-- The slot of the results object addressed by `results[category]`. -/
def catEntry (r : ScanResults) : Cat → CatEntry
  | .cookies => r.cookies
  | .cache => r.cache
  | .history => r.history
  | .localStorage => r.localStorage
  | .databases => r.databases

/-- The end-of-category updates of the loop body:
`results[category].size = data.size`, `results[category].items = data.items`,
`results.total.size += data.size`, `results.total.items += data.items`. -/
def applyCategory (r : ScanResults) (c : Cat) (d : DirStats) : ScanResults :=
  let newTotal : Totals := { size := r.total.size + d.size, items := r.total.items + d.items }
  match c with
  | .cookies =>
      { r with cookies := { r.cookies with size := d.size, items := d.items }, total := newTotal }
  | .cache =>
      { r with cache := { r.cache with size := d.size, items := d.items }, total := newTotal }
  | .history =>
      { r with history := { r.history with size := d.size, items := d.items }, total := newTotal }
  | .localStorage =>
      { r with localStorage := { r.localStorage with size := d.size, items := d.items }, total := newTotal }
  | .databases =>
      { r with databases := { r.databases with size := d.size, items := d.items }, total := newTotal }

/-- A progress event handed to the orchestrator's `progressCallback`:
the category-start event `{ scanning, message, current: results.total }`
or the per-file event
`{ scanning, message, currentSize, currentItems, total }`.  The model
records the value of `results.total` at emission time (the callback
runs synchronously before the loop mutates it further). -/
inductive ProgressEvent : Type where
  | scanningStart (scanning : Cat) (message : String) (current : Totals)
  | fileFound (scanning : Cat) (message : String) (currentSize currentItems : Nat) (total : Totals)
deriving DecidableEq

/-- The `categories` array of `scanSafariStorage`, in source order. -/
def categories : List Cat := [.cookies, .cache, .history, .localStorage, .databases]

/-- One iteration of the `for (const category of categories)` loop of
`scanSafariStorage`: emit the category-start event, run
`getDirectorySize` on the category's path re-emitting each per-file
callback as a `fileFound` event whose grand total is
`results.total.size + progress.totalSize` (and likewise for items,
recomputed at each event from the current `results.total`), then fold
the category's stats into the results object. -/
def scanStep (fs : Cat → FSNode) (home : String)
    (acc : ScanResults × List ProgressEvent) (c : Cat) : ScanResults × List ProgressEvent :=
  let r := acc.1
  let startEvt := ProgressEvent.scanningStart c
    ("Scanning " ++ (catEntry r c).category ++ "...") r.total
  let d := getDirectorySize (SAFARI_PATHS home c) (fs c)
  let fileEvts := d.2.map (fun e =>
    ProgressEvent.fileFound c ("Found: " ++ e.currentFile) e.totalSize e.itemCount
      { size := r.total.size + e.totalSize, items := r.total.items + e.itemCount })
  (applyCategory r c d.1, acc.2 ++ startEvt :: fileEvts)

/-- `scanSafariStorage(progressCallback)`, parameterised by the
filesystem tree found at each category's root path and by
`os.homedir()`.  Returns the final results object together with the
ordered trace of progress events.  (The 100 ms pacing delay between
categories has no observable effect on either and is not modelled.) -/
def scanSafariStorage (fs : Cat → FSNode) (home : String) : ScanResults × List ProgressEvent :=
  categories.foldl (scanStep fs home) (initialResults, [])

/-- Pointwise order on callback payloads: the cumulative size and item
counts of the first are at most those of the second. -/
def eventsLe (a b : FileEvent) : Prop :=
  a.totalSize ≤ b.totalSize ∧ a.itemCount ≤ b.itemCount

/-- The cumulative counts carried by a callback trace are non-decreasing
across successive events. -/
def monoEvents (l : List FileEvent) : Prop := List.Chain' eventsLe l

/-- The category name carried by a progress event. -/
def eventCategory : ProgressEvent → Cat
  | .scanningStart c _ _ => c
  | .fileFound c _ _ _ _ => c

/-- The per-category running counts of a `fileFound` event
(`currentSize`, `currentItems`); `none` on a category-start event. -/
def fileCounts : ProgressEvent → Option (Nat × Nat)
  | .fileFound _ _ cs ci _ => some (cs, ci)
  | .scanningStart _ _ _ => none

/-- Within a list of progress events, the per-category cumulative
size/item counts of the file events are non-decreasing. -/
def fileCountsMono (l : List ProgressEvent) : Prop :=
  List.Chain' (fun a b => a.1 ≤ b.1 ∧ a.2 ≤ b.2) (l.filterMap fileCounts)

/-- The `DirStats` that `getDirectorySize` returns for one category of a
scan. -/
def statsOf (fs : Cat → FSNode) (home : String) (c : Cat) : DirStats :=
  (getDirectorySize (SAFARI_PATHS home c) (fs c)).1

/-- The categories strictly before the given one in the fixed scan
order of the `categories` array. -/
def priorCats : Cat → List Cat
  | .cookies => []
  | .cache => [.cookies]
  | .history => [.cookies, .cache]
  | .localStorage => [.cookies, .cache, .history]
  | .databases => [.cookies, .cache, .history, .localStorage]

/-- The grand total over all fully-completed categories strictly before
the given one: what `results.total` holds while that category scans. -/
def priorTotal (fs : Cat → FSNode) (home : String) (c : Cat) : Totals :=
  { size := ((priorCats c).map fun c2 => (statsOf fs home c2).size).sum
    items := ((priorCats c).map fun c2 => (statsOf fs home c2).items).sum }

/-- The progress events one loop iteration appends when the results
object holds `r` as the iteration starts: the category-start event
followed by the re-emitted per-file events of that category's
`getDirectorySize` call. -/
def stepBlock (fs : Cat → FSNode) (home : String) (r : ScanResults) (c : Cat) :
    List ProgressEvent :=
  ProgressEvent.scanningStart c ("Scanning " ++ (catEntry r c).category ++ "...") r.total
    :: ((getDirectorySize (SAFARI_PATHS home c) (fs c)).2.map (fun e =>
        ProgressEvent.fileFound c ("Found: " ++ e.currentFile) e.totalSize e.itemCount
          { size := r.total.size + e.totalSize, items := r.total.items + e.itemCount }))

mutual

/-- Accumulator invariant of the traversal: one call adds exactly the
resolved file-size sum to `totalSize`, the resolved file count to
`itemCount`, appends that many records to `processedItems`, and the
sizes recorded in the appended records sum to the added size. -/
theorem processDirectory_accum (p : String) (n : FSNode) (s : ScanState) :
    (processDirectory p n s).totalSize = s.totalSize + resolvedFilesSize n ∧
    (processDirectory p n s).itemCount = s.itemCount + resolvedFilesCount n ∧
    (processDirectory p n s).processedItems.length
      = s.processedItems.length + resolvedFilesCount n ∧
    ((processDirectory p n s).processedItems.map FileRecord.size).sum
      = (s.processedItems.map FileRecord.size).sum + resolvedFilesSize n := by
  cases n with
  | missing => simp [processDirectory, resolvedFilesSize, resolvedFilesCount]
  | denied => simp [processDirectory, resolvedFilesSize, resolvedFilesCount]
  | dirDenied => simp [processDirectory, resolvedFilesSize, resolvedFilesCount]
  | special => simp [processDirectory, resolvedFilesSize, resolvedFilesCount]
  | symlink t =>
      simpa [processDirectory, resolvedFilesSize, resolvedFilesCount] using
        processDirectory_accum p t s
  | file sz =>
      simp [processDirectory, resolvedFilesSize, resolvedFilesCount]
  | dir cs =>
      simpa [processDirectory, resolvedFilesSize, resolvedFilesCount] using
        processEntries_accum p cs s

/-- Accumulator invariant of the child loop, companion of
`processDirectory_accum`. -/
theorem processEntries_accum (p : String) (es : FSEntries) (s : ScanState) :
    (processEntries p es s).totalSize = s.totalSize + resolvedFilesSizeEntries es ∧
    (processEntries p es s).itemCount = s.itemCount + resolvedFilesCountEntries es ∧
    (processEntries p es s).processedItems.length
      = s.processedItems.length + resolvedFilesCountEntries es ∧
    ((processEntries p es s).processedItems.map FileRecord.size).sum
      = (s.processedItems.map FileRecord.size).sum + resolvedFilesSizeEntries es := by
  cases es with
  | nil => simp [processEntries, resolvedFilesSizeEntries, resolvedFilesCountEntries]
  | cons nm c rest =>
      have h1 := processDirectory_accum (p ++ "/" ++ nm) c s
      have h2 := processEntries_accum p rest (processDirectory (p ++ "/" ++ nm) c s)
      simp only [processEntries, resolvedFilesSizeEntries, resolvedFilesCountEntries]
      omega

end

mutual

/-- Progress-trace invariant of the traversal: if the events recorded
so far carry non-decreasing cumulative counts, all bounded by the
current accumulators, the same holds after processing any node. -/
theorem processDirectory_events (p : String) (n : FSNode) (s : ScanState)
    (hm : monoEvents s.events)
    (hb : ∀ e ∈ s.events, e.totalSize ≤ s.totalSize ∧ e.itemCount ≤ s.itemCount) :
    monoEvents (processDirectory p n s).events ∧
    (∀ e ∈ (processDirectory p n s).events,
      e.totalSize ≤ (processDirectory p n s).totalSize ∧
      e.itemCount ≤ (processDirectory p n s).itemCount) := by
  cases n with
  | missing => simpa only [processDirectory] using ⟨hm, hb⟩
  | denied => simpa only [processDirectory] using ⟨hm, hb⟩
  | dirDenied => simpa only [processDirectory] using ⟨hm, hb⟩
  | special => simpa only [processDirectory] using ⟨hm, hb⟩
  | symlink t => simpa only [processDirectory] using processDirectory_events p t s hm hb
  | file sz =>
      constructor
      · simp only [processDirectory, monoEvents] at *
        rw [List.chain'_append]
        refine ⟨hm, List.chain'_singleton _, ?_⟩
        intro x hx y hy
        obtain ⟨hne, hxl⟩ := List.mem_getLast?_eq_getLast hx
        have hmem : x ∈ s.events := hxl ▸ List.getLast_mem hne
        simp only [List.head?_cons, Option.mem_def, Option.some.injEq] at hy
        subst hy
        exact ⟨le_trans (hb x hmem).1 (Nat.le_add_right _ _),
               le_trans (hb x hmem).2 (Nat.le_add_right _ _)⟩
      · intro e he
        simp only [processDirectory, List.mem_append, List.mem_singleton] at he ⊢
        rcases he with he | he
        · exact ⟨le_trans (hb e he).1 (Nat.le_add_right _ _),
                 le_trans (hb e he).2 (Nat.le_add_right _ _)⟩
        · subst he; exact ⟨le_refl _, le_refl _⟩
  | dir cs =>
      simpa only [processDirectory] using processEntries_events p cs s hm hb

/-- Progress-trace invariant of the child loop, companion of
`processDirectory_events`. -/
theorem processEntries_events (p : String) (es : FSEntries) (s : ScanState)
    (hm : monoEvents s.events)
    (hb : ∀ e ∈ s.events, e.totalSize ≤ s.totalSize ∧ e.itemCount ≤ s.itemCount) :
    monoEvents (processEntries p es s).events ∧
    (∀ e ∈ (processEntries p es s).events,
      e.totalSize ≤ (processEntries p es s).totalSize ∧
      e.itemCount ≤ (processEntries p es s).itemCount) := by
  cases es with
  | nil => simpa only [processEntries] using ⟨hm, hb⟩
  | cons nm c rest =>
      have h1 := processDirectory_events (p ++ "/" ++ nm) c s hm hb
      have h2 := processEntries_events p rest (processDirectory (p ++ "/" ++ nm) c s) h1.1 h1.2
      simpa only [processEntries] using h2

end

/-- The cumulative counts carried by the callback trace of a whole
`getDirectorySize` call are non-decreasing. -/
theorem getDirectorySize_events_mono (p : String) (t : FSNode) :
    monoEvents (getDirectorySize p t).2 := by
  have h := processDirectory_events p t
    { totalSize := 0, itemCount := 0, processedItems := [], events := [] }
    (by simp [monoEvents]) (by simp)
  simpa [getDirectorySize] using h.1

/-- A node on which the per-node `try`/`catch` fires (or whose existence
pre-check fails) leaves the traversal state completely unchanged. -/
theorem processDirectory_errorNode (p : String) (d : FSNode) (s : ScanState)
    (h : isErrorNode d = true) : processDirectory p d s = s := by
  cases d <;> simp_all [isErrorNode, processDirectory]

/-- Processing a concatenated directory listing processes the two parts
in sequence. -/
theorem processEntries_append (p : String) (l1 l2 : FSEntries) (s : ScanState) :
    processEntries p (FSEntries.append l1 l2) s
      = processEntries p l2 (processEntries p l1 s) := by
  cases l1 with
  | nil => simp [FSEntries.append, processEntries]
  | cons nm c rest =>
      simp only [FSEntries.append, processEntries]
      exact processEntries_append p rest l2 _
termination_by sizeOf l1

mutual

/-- On symlink-free trees the measured totals agree with the spec's
measure (which never follows symlinks). -/
theorem resolved_eq_spec (n : FSNode) (h : symlinkFree n = true) :
    resolvedFilesSize n = specFilesSize n ∧ resolvedFilesCount n = specFilesCount n := by
  cases n with
  | file sz => simp [resolvedFilesSize, specFilesSize, resolvedFilesCount, specFilesCount]
  | symlink t => simp [symlinkFree] at h
  | special => simp [resolvedFilesSize, specFilesSize, resolvedFilesCount, specFilesCount]
  | missing => simp [resolvedFilesSize, specFilesSize, resolvedFilesCount, specFilesCount]
  | denied => simp [resolvedFilesSize, specFilesSize, resolvedFilesCount, specFilesCount]
  | dirDenied => simp [resolvedFilesSize, specFilesSize, resolvedFilesCount, specFilesCount]
  | dir cs =>
      have := resolvedEntries_eq_spec cs (by simpa [symlinkFree] using h)
      simpa [resolvedFilesSize, specFilesSize, resolvedFilesCount, specFilesCount] using this

/-- Companion of `resolved_eq_spec` for directory listings. -/
theorem resolvedEntries_eq_spec (es : FSEntries) (h : symlinkFreeEntries es = true) :
    resolvedFilesSizeEntries es = specFilesSizeEntries es ∧
    resolvedFilesCountEntries es = specFilesCountEntries es := by
  cases es with
  | nil => simp [resolvedFilesSizeEntries, specFilesSizeEntries,
      resolvedFilesCountEntries, specFilesCountEntries]
  | cons nm c rest =>
      simp only [symlinkFreeEntries, Bool.and_eq_true] at h
      have h1 := resolved_eq_spec c h.1
      have h2 := resolvedEntries_eq_spec rest h.2
      simp only [resolvedFilesSizeEntries, specFilesSizeEntries,
        resolvedFilesCountEntries, specFilesCountEntries]
      omega

end

/-- C3: for every rootPath that does not exist in the filesystem,
`getDirectorySize(rootPath)` returns a result with size 0, items 0 and
an empty files list, without raising an error (the embedding is a total
function: the existence pre-check turns the missing root into a normal
return, not an exception). -/
theorem c3_missing_root_zero (rootPath : String) :
    getDirectorySize rootPath FSNode.missing
      = ({ size := 0, items := 0, files := [] }, []) := by
  simp [getDirectorySize, processDirectory]

/-- C9: for every input tree, the result of `getDirectorySize` is
internally consistent: the returned `files` list has length equal to
the returned `items` count, and the sizes recorded in `files` sum to
the returned `size`. -/
theorem c9_stats_internally_consistent (p : String) (t : FSNode) :
    (getDirectorySize p t).1.files.length = (getDirectorySize p t).1.items ∧
    ((getDirectorySize p t).1.files.map FileRecord.size).sum = (getDirectorySize p t).1.size := by
  have h := processDirectory_accum p t ⟨0, 0, [], []⟩
  simp only [List.length_nil, List.map_nil, List.sum_nil] at h
  simp only [getDirectorySize]
  exact ⟨by omega, by omega⟩

/-- C1, counterexample: on a root that is a symbolic link to a regular
file of size 5, `getDirectorySize` returns size 5 and one item
(`fs.statSync` follows the link), while the spec's measure — which
excludes symlinks — is 0, so the claimed equality fails. -/
theorem c1_symlink_counterexample :
    (getDirectorySize "/root" (FSNode.symlink (FSNode.file 5))).1.size = 5 ∧
    (getDirectorySize "/root" (FSNode.symlink (FSNode.file 5))).1.items = 1 ∧
    specFilesSize (FSNode.symlink (FSNode.file 5)) = 0 ∧
    specFilesCount (FSNode.symlink (FSNode.file 5)) = 0 := by
  refine ⟨?_, ?_, rfl, rfl⟩ <;> simp [getDirectorySize, processDirectory]

/-- C1, amended: for every directory tree, `getDirectorySize` returns
exactly the sum of the byte sizes and the count of the regular files
reachable from the root with symbolic links resolved to their targets;
on symlink-free trees this coincides with the spec's measure (sum and
count of reachable regular files, excluding symlinks and specials). -/
theorem c1_measure_amended (p : String) (t : FSNode) :
    (getDirectorySize p t).1.size = resolvedFilesSize t ∧
    (getDirectorySize p t).1.items = resolvedFilesCount t ∧
    (symlinkFree t = true →
      (getDirectorySize p t).1.size = specFilesSize t ∧
      (getDirectorySize p t).1.items = specFilesCount t) := by
  have h := processDirectory_accum p t ⟨0, 0, [], []⟩
  simp only [List.length_nil, List.map_nil, List.sum_nil] at h
  have hs : (getDirectorySize p t).1.size = resolvedFilesSize t := by
    simp only [getDirectorySize]; omega
  have hi : (getDirectorySize p t).1.items = resolvedFilesCount t := by
    simp only [getDirectorySize]; omega
  exact ⟨hs, hi, fun hsf =>
    ⟨by rw [hs, (resolved_eq_spec t hsf).1], by rw [hi, (resolved_eq_spec t hsf).2]⟩⟩

/-- C1, witness: on the concrete symlink-free tree with one file of
size 3, the measured size agrees with the spec's measure. -/
theorem c1_measure_witness :
    (getDirectorySize "/x" (FSNode.dir (FSEntries.cons "a" (FSNode.file 3) FSEntries.nil))).1.size
      = specFilesSize (FSNode.dir (FSEntries.cons "a" (FSNode.file 3) FSEntries.nil)) :=
  ((c1_measure_amended "/x"
    (FSNode.dir (FSEntries.cons "a" (FSNode.file 3) FSEntries.nil))).2.2 rfl).1

/-- C4: a node that raises an access failure (stat failure, readdir
failure, or disappearance before the existence check) is caught at that
node: removing it from a directory listing leaves the traversal result
unchanged — zero contribution from that subtree, siblings still
processed, no error propagated (the embedding is total).  In
particular, a directory holding one unreadable subdirectory and one
readable 100-byte file yields size 100 and one item. -/
theorem c4_error_nodes_zero_contribution (p nm : String) (d : FSNode) (pre post : FSEntries)
    (s : ScanState) (h : isErrorNode d = true) :
    processEntries p (FSEntries.append pre (FSEntries.cons nm d post)) s
      = processEntries p (FSEntries.append pre post) s ∧
    (getDirectorySize "/r"
        (FSNode.dir (FSEntries.cons "sub" FSNode.dirDenied
          (FSEntries.cons "f.txt" (FSNode.file 100) FSEntries.nil)))).1.size = 100 ∧
    (getDirectorySize "/r"
        (FSNode.dir (FSEntries.cons "sub" FSNode.dirDenied
          (FSEntries.cons "f.txt" (FSNode.file 100) FSEntries.nil)))).1.items = 1 := by
  refine ⟨?_, ?_, ?_⟩
  · rw [processEntries_append, processEntries_append]
    simp only [processEntries]
    rw [processDirectory_errorNode _ _ _ h]
  · simp [getDirectorySize, processDirectory, processEntries]
  · simp [getDirectorySize, processDirectory, processEntries]

/-- C4, witness: a listing holding only one stat-denied entry produces
the same state as the empty listing. -/
theorem c4_witness :
    processEntries "/r"
        (FSEntries.append FSEntries.nil (FSEntries.cons "sub" FSNode.denied FSEntries.nil))
        ⟨0, 0, [], []⟩
      = processEntries "/r" (FSEntries.append FSEntries.nil FSEntries.nil) ⟨0, 0, [], []⟩ :=
  (c4_error_nodes_zero_contribution "/r" "sub" FSNode.denied FSEntries.nil FSEntries.nil
    ⟨0, 0, [], []⟩ rfl).1

/-- C5, counterexample: a directory whose single child is a symbolic
link to a 5-byte regular file yields size 5 and one item — the symlink
is not skipped with zero contribution, because `fs.statSync` resolves
it to its target. -/
theorem c5_symlink_followed_counterexample :
    (getDirectorySize "/r"
        (FSNode.dir (FSEntries.cons "link" (FSNode.symlink (FSNode.file 5)) FSEntries.nil))).1.size
      = 5 ∧
    (getDirectorySize "/r"
        (FSNode.dir (FSEntries.cons "link" (FSNode.symlink (FSNode.file 5)) FSEntries.nil))).1.items
      = 1 ∧
    (getDirectorySize "/r"
        (FSNode.dir (FSEntries.cons "link" (FSNode.symlink (FSNode.file 5)) FSEntries.nil))).1.size
      ≠ 0 := by
  refine ⟨?_, ?_, ?_⟩ <;> simp [getDirectorySize, processDirectory, processEntries]

/-- C5, amended: a node that stats as neither a regular file nor a
directory (socket, device) is skipped silently with zero contribution
and no events, as is a missing/broken node; but a resolvable symbolic
link is processed exactly as its target (so a link to a file is
counted and a link to a directory is descended into). -/
theorem c5_special_skipped_amended (p : String) (t : FSNode) (s : ScanState) :
    processDirectory p FSNode.special s = s ∧
    processDirectory p FSNode.missing s = s ∧
    processDirectory p (FSNode.symlink t) s = processDirectory p t s := by
  refine ⟨?_, ?_, ?_⟩ <;> simp [processDirectory]

/-- C2: for every scan (over any filesystem contents whatsoever,
including unreadable sub-paths, which contribute zero), the summary
returned by `scanSafariStorage` satisfies `total.size` equal to the sum
of the five per-category sizes and `total.items` equal to the sum of
the five per-category item counts. -/
theorem c2_total_eq_sum_of_categories (fs : Cat → FSNode) (home : String) :
    (scanSafariStorage fs home).1.total.size
        = (scanSafariStorage fs home).1.cookies.size
          + (scanSafariStorage fs home).1.cache.size
          + (scanSafariStorage fs home).1.history.size
          + (scanSafariStorage fs home).1.localStorage.size
          + (scanSafariStorage fs home).1.databases.size ∧
    (scanSafariStorage fs home).1.total.items
        = (scanSafariStorage fs home).1.cookies.items
          + (scanSafariStorage fs home).1.cache.items
          + (scanSafariStorage fs home).1.history.items
          + (scanSafariStorage fs home).1.localStorage.items
          + (scanSafariStorage fs home).1.databases.items := by
  simp only [scanSafariStorage, categories, List.foldl_cons, List.foldl_nil,
    scanStep, applyCategory, initialResults]
  constructor <;> simp

/-- One loop iteration of `scanSafariStorage` folds the category's
stats into the results object and appends that iteration's event
block. -/
theorem scanStep_eq (fs : Cat → FSNode) (home : String)
    (acc : ScanResults × List ProgressEvent) (c : Cat) :
    scanStep fs home acc c
      = (applyCategory acc.1 c (statsOf fs home c), acc.2 ++ stepBlock fs home acc.1 c) := by
  simp [scanStep, stepBlock, statsOf]

/-- A loop iteration's event block is non-empty, carries only its own
category name, and its file events have non-decreasing per-category
cumulative counts. -/
theorem stepBlock_props (fs : Cat → FSNode) (home : String) (r : ScanResults) (c : Cat) :
    stepBlock fs home r c ≠ [] ∧
    (∀ e ∈ stepBlock fs home r c, eventCategory e = c) ∧
    fileCountsMono (stepBlock fs home r c) := by
  refine ⟨by simp [stepBlock], ?_, ?_⟩
  · intro e he
    simp only [stepBlock, List.mem_cons, List.mem_map] at he
    rcases he with he | ⟨e0, _, he⟩ <;> subst he <;> rfl
  · have hmono := getDirectorySize_events_mono (SAFARI_PATHS home c) (fs c)
    simp only [fileCountsMono, stepBlock, List.filterMap_cons, fileCounts,
      List.filterMap_map]
    have : (fileCounts ∘ fun e : FileEvent =>
        ProgressEvent.fileFound c ("Found: " ++ e.currentFile) e.totalSize e.itemCount
          { size := r.total.size + e.totalSize, items := r.total.items + e.itemCount })
        = fun e : FileEvent => some (e.totalSize, e.itemCount) := by
      funext e; rfl
    rw [this]
    rw [show (fun e : FileEvent => some (e.totalSize, e.itemCount))
          = some ∘ (fun e : FileEvent => (e.totalSize, e.itemCount)) from rfl,
        List.filterMap_eq_map, List.chain'_map]
    exact hmono.imp (fun a b hab => ⟨hab.1, hab.2⟩)

/-- C6: the progress events of every scan split into five consecutive
non-empty blocks carrying category names in the fixed order cookies,
cache, history, localStorage, databases, and within each block the
per-category cumulative size and item counts of the file events are
non-decreasing across successive events. -/
theorem c6_progress_order_mono (fs : Cat → FSNode) (home : String) :
    ∃ b1 b2 b3 b4 b5 : List ProgressEvent,
      (scanSafariStorage fs home).2 = b1 ++ b2 ++ b3 ++ b4 ++ b5 ∧
      (b1 ≠ [] ∧ ∀ e ∈ b1, eventCategory e = Cat.cookies) ∧
      (b2 ≠ [] ∧ ∀ e ∈ b2, eventCategory e = Cat.cache) ∧
      (b3 ≠ [] ∧ ∀ e ∈ b3, eventCategory e = Cat.history) ∧
      (b4 ≠ [] ∧ ∀ e ∈ b4, eventCategory e = Cat.localStorage) ∧
      (b5 ≠ [] ∧ ∀ e ∈ b5, eventCategory e = Cat.databases) ∧
      fileCountsMono b1 ∧ fileCountsMono b2 ∧ fileCountsMono b3 ∧
      fileCountsMono b4 ∧ fileCountsMono b5 := by
  refine ⟨stepBlock fs home initialResults Cat.cookies,
    stepBlock fs home (applyCategory initialResults Cat.cookies (statsOf fs home Cat.cookies)) Cat.cache,
    stepBlock fs home (applyCategory (applyCategory initialResults Cat.cookies (statsOf fs home Cat.cookies)) Cat.cache (statsOf fs home Cat.cache)) Cat.history,
    stepBlock fs home (applyCategory (applyCategory (applyCategory initialResults Cat.cookies (statsOf fs home Cat.cookies)) Cat.cache (statsOf fs home Cat.cache)) Cat.history (statsOf fs home Cat.history)) Cat.localStorage,
    stepBlock fs home (applyCategory (applyCategory (applyCategory (applyCategory initialResults Cat.cookies (statsOf fs home Cat.cookies)) Cat.cache (statsOf fs home Cat.cache)) Cat.history (statsOf fs home Cat.history)) Cat.localStorage (statsOf fs home Cat.localStorage)) Cat.databases,
    ?_,
    ⟨(stepBlock_props fs home initialResults Cat.cookies).1, (stepBlock_props fs home initialResults Cat.cookies).2.1⟩,
    ⟨(stepBlock_props fs home (applyCategory initialResults Cat.cookies (statsOf fs home Cat.cookies)) Cat.cache).1, (stepBlock_props fs home (applyCategory initialResults Cat.cookies (statsOf fs home Cat.cookies)) Cat.cache).2.1⟩,
    ⟨(stepBlock_props fs home (applyCategory (applyCategory initialResults Cat.cookies (statsOf fs home Cat.cookies)) Cat.cache (statsOf fs home Cat.cache)) Cat.history).1, (stepBlock_props fs home (applyCategory (applyCategory initialResults Cat.cookies (statsOf fs home Cat.cookies)) Cat.cache (statsOf fs home Cat.cache)) Cat.history).2.1⟩,
    ⟨(stepBlock_props fs home (applyCategory (applyCategory (applyCategory initialResults Cat.cookies (statsOf fs home Cat.cookies)) Cat.cache (statsOf fs home Cat.cache)) Cat.history (statsOf fs home Cat.history)) Cat.localStorage).1, (stepBlock_props fs home (applyCategory (applyCategory (applyCategory initialResults Cat.cookies (statsOf fs home Cat.cookies)) Cat.cache (statsOf fs home Cat.cache)) Cat.history (statsOf fs home Cat.history)) Cat.localStorage).2.1⟩,
    ⟨(stepBlock_props fs home (applyCategory (applyCategory (applyCategory (applyCategory initialResults Cat.cookies (statsOf fs home Cat.cookies)) Cat.cache (statsOf fs home Cat.cache)) Cat.history (statsOf fs home Cat.history)) Cat.localStorage (statsOf fs home Cat.localStorage)) Cat.databases).1, (stepBlock_props fs home (applyCategory (applyCategory (applyCategory (applyCategory initialResults Cat.cookies (statsOf fs home Cat.cookies)) Cat.cache (statsOf fs home Cat.cache)) Cat.history (statsOf fs home Cat.history)) Cat.localStorage (statsOf fs home Cat.localStorage)) Cat.databases).2.1⟩,
    (stepBlock_props fs home initialResults Cat.cookies).2.2,
    (stepBlock_props fs home (applyCategory initialResults Cat.cookies (statsOf fs home Cat.cookies)) Cat.cache).2.2,
    (stepBlock_props fs home (applyCategory (applyCategory initialResults Cat.cookies (statsOf fs home Cat.cookies)) Cat.cache (statsOf fs home Cat.cache)) Cat.history).2.2,
    (stepBlock_props fs home (applyCategory (applyCategory (applyCategory initialResults Cat.cookies (statsOf fs home Cat.cookies)) Cat.cache (statsOf fs home Cat.cache)) Cat.history (statsOf fs home Cat.history)) Cat.localStorage).2.2,
    (stepBlock_props fs home (applyCategory (applyCategory (applyCategory (applyCategory initialResults Cat.cookies (statsOf fs home Cat.cookies)) Cat.cache (statsOf fs home Cat.cache)) Cat.history (statsOf fs home Cat.history)) Cat.localStorage (statsOf fs home Cat.localStorage)) Cat.databases).2.2⟩
  simp only [scanSafariStorage, categories, List.foldl_cons, List.foldl_nil, scanStep_eq,
    List.nil_append, List.append_assoc]

/-- Folding a category's stats into the results object adds them to
the running grand total. -/
theorem applyCategory_total (r : ScanResults) (c : Cat) (d : DirStats) :
    (applyCategory r c d).total
      = { size := r.total.size + d.size, items := r.total.items + d.items } := by
  cases c <;> rfl

/-- Every `fileFound` event in a loop iteration's block carries that
block's category and a grand total equal to the results object's
running total at the start of the iteration plus the event's running
category counts. -/
theorem stepBlock_fileFound (fs : Cat → FSNode) (home : String) (r : ScanResults)
    (c c2 : Cat) (msg : String) (cs ci : Nat) (tot : Totals)
    (h : ProgressEvent.fileFound c2 msg cs ci tot ∈ stepBlock fs home r c) :
    c2 = c ∧ tot.size = r.total.size + cs ∧ tot.items = r.total.items + ci := by
  simp only [stepBlock, List.mem_cons, List.mem_map] at h
  rcases h with h | ⟨e0, _, h⟩
  · exact absurd h (by simp)
  · obtain ⟨hc, hmsg, hcs, hci, htot⟩ := ProgressEvent.fileFound.inj h
    subst hc hcs hci
    exact ⟨rfl, by rw [← htot], by rw [← htot]⟩

/-- C7: every per-file progress event emitted during a scan carries a
grand total equal to the sum of the totals of all fully completed prior
categories plus the current category's running subtotal at that file
visit (the code recomputes `results.total.size + progress.totalSize`
freshly inside every callback invocation). -/
theorem c7_fileFound_grand_total (fs : Cat → FSNode) (home : String) (c : Cat)
    (msg : String) (cs ci : Nat) (tot : Totals)
    (h : ProgressEvent.fileFound c msg cs ci tot ∈ (scanSafariStorage fs home).2) :
    tot.size = (priorTotal fs home c).size + cs ∧
    tot.items = (priorTotal fs home c).items + ci := by
  simp only [scanSafariStorage, categories, List.foldl_cons, List.foldl_nil, scanStep_eq,
    List.nil_append, List.append_assoc, List.mem_append] at h
  rcases h with h | h | h | h | h
  · obtain ⟨hc, hs, hi⟩ := stepBlock_fileFound fs home initialResults Cat.cookies c msg cs ci tot h
    subst hc
    simp only [applyCategory_total, initialResults] at hs hi
    simp only [priorTotal, priorCats, List.map_cons, List.map_nil,
      List.sum_cons, List.sum_nil]
    constructor <;> omega
  · obtain ⟨hc, hs, hi⟩ := stepBlock_fileFound fs home (applyCategory initialResults Cat.cookies (statsOf fs home Cat.cookies)) Cat.cache c msg cs ci tot h
    subst hc
    simp only [applyCategory_total, initialResults] at hs hi
    simp only [priorTotal, priorCats, List.map_cons, List.map_nil,
      List.sum_cons, List.sum_nil]
    constructor <;> omega
  · obtain ⟨hc, hs, hi⟩ := stepBlock_fileFound fs home (applyCategory (applyCategory initialResults Cat.cookies (statsOf fs home Cat.cookies)) Cat.cache (statsOf fs home Cat.cache)) Cat.history c msg cs ci tot h
    subst hc
    simp only [applyCategory_total, initialResults] at hs hi
    simp only [priorTotal, priorCats, List.map_cons, List.map_nil,
      List.sum_cons, List.sum_nil]
    constructor <;> omega
  · obtain ⟨hc, hs, hi⟩ := stepBlock_fileFound fs home (applyCategory (applyCategory (applyCategory initialResults Cat.cookies (statsOf fs home Cat.cookies)) Cat.cache (statsOf fs home Cat.cache)) Cat.history (statsOf fs home Cat.history)) Cat.localStorage c msg cs ci tot h
    subst hc
    simp only [applyCategory_total, initialResults] at hs hi
    simp only [priorTotal, priorCats, List.map_cons, List.map_nil,
      List.sum_cons, List.sum_nil]
    constructor <;> omega
  · obtain ⟨hc, hs, hi⟩ := stepBlock_fileFound fs home (applyCategory (applyCategory (applyCategory (applyCategory initialResults Cat.cookies (statsOf fs home Cat.cookies)) Cat.cache (statsOf fs home Cat.cache)) Cat.history (statsOf fs home Cat.history)) Cat.localStorage (statsOf fs home Cat.localStorage)) Cat.databases c msg cs ci tot h
    subst hc
    simp only [applyCategory_total, initialResults] at hs hi
    simp only [priorTotal, priorCats, List.map_cons, List.map_nil,
      List.sum_cons, List.sum_nil]
    constructor <;> omega

/-- C7, witness: in a scan where every category root is a single
7-byte file, the cookies-category file event carrying running counts
(7, 1) has grand total (0 + 7, 0 + 1). -/
theorem c7_witness :
    ({ size := 7, items := 1 } : Totals).size
        = (priorTotal (fun _ => FSNode.file 7) "/h" Cat.cookies).size + 7 ∧
    ({ size := 7, items := 1 } : Totals).items
        = (priorTotal (fun _ => FSNode.file 7) "/h" Cat.cookies).items + 1 := by
  refine c7_fileFound_grand_total (fun _ => FSNode.file 7) "/h" Cat.cookies
    "Found: Cookies" 7 1 { size := 7, items := 1 } ?_
  simp only [scanSafariStorage, categories, List.foldl_cons, List.foldl_nil, scanStep,
    getDirectorySize, processDirectory, SAFARI_PATHS, applyCategory, initialResults,
    catEntry, List.map_cons, List.map_nil, List.nil_append, List.append_assoc,
    List.mem_append, List.mem_cons]
  left
  right
  left
  rfl

/-- The characters of an appended string are the appended character
lists. -/
theorem string_data_append (a b : String) : (a ++ b).data = a.data ++ b.data := by
  cases a; cases b; rfl

/-- String concatenation is associative. -/
theorem string_append_assoc (a b c : String) : a ++ b ++ c = a ++ (b ++ c) := by
  cases a with
  | mk d1 =>
    cases b with
    | mk d2 =>
      cases c with
      | mk d3 => exact congrArg String.mk (List.append_assoc d1 d2 d3)

/-- C8, counterexample: `formatBytes(1536)` is `"1.5 KB"`, not the
claimed `"1.50 KB"` — `parseFloat` re-parses the `toFixed(2)` string
and the number-to-string coercion drops the trailing zero. -/
theorem c8_two_decimals_counterexample : formatBytes 1536 ≠ "1.50 KB" := by
  have hlog : Nat.log 1024 1536 = 1 :=
    Nat.log_eq_of_pow_le_of_lt_pow (by norm_num) (by norm_num)
  simp only [formatBytes, hlog]
  decide

/-- C8, amended: `formatBytes` formats zero as exactly `"0 B"`; for
every byte count strictly between 0 and 1024^4 it selects the largest
base-1024 unit whose scaled value is at least one (the exact-logarithm
model of the `Math.log` quotient) and renders the value rounded to two
decimals with trailing fractional zeros stripped by the `parseFloat`
round-trip: `formatBytes(1536) = "1.5 KB"` and
`formatBytes(1073741824) = "1 GB"`. -/
theorem c8_formatBytes_amended :
    formatBytes 0 = "0 B" ∧
    formatBytes 1536 = "1.5 KB" ∧
    formatBytes 1073741824 = "1 GB" ∧
    (∀ b : Nat, 0 < b → b < 1024 ^ 4 →
      ∃ i v, 1024 ^ i ≤ b ∧ (∀ j : Nat, 1024 ^ j ≤ b → j ≤ i) ∧
        formatBytes b = v ++ " " ++ sizesArr.getD i "undefined") := by
  refine ⟨rfl, ?_, ?_, ?_⟩
  · have hlog : Nat.log 1024 1536 = 1 :=
      Nat.log_eq_of_pow_le_of_lt_pow (by norm_num) (by norm_num)
    simp only [formatBytes, hlog]
    decide
  · have hlog : Nat.log 1024 1073741824 = 3 :=
      Nat.log_eq_of_pow_le_of_lt_pow (by norm_num) (by norm_num)
    simp only [formatBytes, hlog]
    decide
  · intro b hb _
    have hb0 : b ≠ 0 := Nat.pos_iff_ne_zero.mp hb
    refine ⟨Nat.log 1024 b, stripZeros (toFixed2 b (1024 ^ Nat.log 1024 b)),
      Nat.pow_log_le_self 1024 hb0, ?_, ?_⟩
    · intro j hj
      exact (Nat.pow_le_iff_le_log (by norm_num) hb0).mp hj
    · have hne : (b == 0) = false := by simp [hb0]
      simp only [formatBytes, hne, Bool.false_eq_true, if_false]

/-- C8, witness: the unit-selection clause of the amended claim
instantiated at 1536 bytes. -/
theorem c8_witness :
    ∃ i v, 1024 ^ i ≤ (1536 : Nat) ∧ (∀ j : Nat, 1024 ^ j ≤ (1536 : Nat) → j ≤ i) ∧
      formatBytes 1536 = v ++ " " ++ sizesArr.getD i "undefined" :=
  c8_formatBytes_amended.2.2.2 1536 (by norm_num) (by norm_num)

/-- C10: for every byte count of at least 1024^4, the unit index is at
least 4 and `sizes[i]` falls past the end of the four-element unit
array, so the result ends in `" undefined"` and does not end in any
unit from B, KB, MB, GB. -/
theorem c10_formatBytes_overflow (b : Nat) (hb : 1024 ^ 4 ≤ b) :
    (∃ v : String, formatBytes b = v ++ " undefined") ∧
    (∀ u ∈ sizesArr, ¬ u.data <:+ (formatBytes b).data) := by
  have hb0 : b ≠ 0 := by
    intro h
    rw [h] at hb
    norm_num at hb
  have hlog : 4 ≤ Nat.log 1024 b := (Nat.pow_le_iff_le_log (by norm_num) hb0).mp hb
  have hgetD : sizesArr.getD (Nat.log 1024 b) "undefined" = "undefined" :=
    List.getD_eq_default _ _ (by simp only [sizesArr, List.length_cons, List.length_nil]; omega)
  have hne : (b == 0) = false := by simp [hb0]
  have hfb : formatBytes b
      = stripZeros (toFixed2 b (1024 ^ Nat.log 1024 b)) ++ " undefined" := by
    simp only [formatBytes, hne, Bool.false_eq_true, if_false, hgetD]
    rw [string_append_assoc]
    rfl
  constructor
  · exact ⟨stripZeros (toFixed2 b (1024 ^ Nat.log 1024 b)), hfb⟩
  · intro u hu hsuf
    have h1 : (formatBytes b).data.getLast? = some 'd' := by
      rw [hfb, string_data_append,
        List.getLast?_append_of_ne_nil _ (by decide : (" undefined" : String).data ≠ [])]
      decide
    obtain ⟨t, ht⟩ := hsuf
    fin_cases hu <;>
      (rw [← ht, List.getLast?_append_of_ne_nil _ (by decide)] at h1 ; exact absurd h1 (by decide))

/-- C10, witness: the overflow behaviour at exactly 1024^4 bytes. -/
theorem c10_witness :
    (∃ v : String, formatBytes (1024 ^ 4) = v ++ " undefined") ∧
    (∀ u ∈ sizesArr, ¬ u.data <:+ (formatBytes (1024 ^ 4)).data) :=
  c10_formatBytes_overflow (1024 ^ 4) (le_refl _)
